import Mathlib

/-!
Shallow embedding of the spectrometer driver (src/spec.py): the command
encoder, the acquisition read loop and byte decoder, the wavelength
mapper, the active-pixel slice of `main`, and an event trace recording
the writes, reads and sleeps the program performs.

The USB device is abstracted as a function from read-iteration index to
the outcome of `device.read(0x82, 512)` at that iteration: `some bytes`
for a successful read, `none` for a read that raises.
-/

/-- The decoding loop of `request_spectrum` (src/spec.py lines 53-60):
bytes are consumed two at a time, each pair `lo, hi` yielding the pixel
value `lo | (hi << 8)`; a trailing unpaired byte yields nothing. -/
def decodePixels : List Nat → List Nat
  | lo :: hi :: rest => (lo ||| (hi <<< 8)) :: decodePixels rest
  | _ => []

/-- The read loop of `request_spectrum` (src/spec.py lines 45-51):
`fuel` remaining iterations starting at iteration `i`; a successful read
appends its packet, a failing read breaks out of the loop. -/
def readLoopAux (device : Nat → Option (List Nat)) : Nat → Nat → List Nat
  | 0, _ => []
  | fuel + 1, i =>
    match device i with
    | none => []
    | some packet => packet ++ readLoopAux device fuel (i + 1)

/-- The pixel list returned by `request_spectrum` (src/spec.py lines 39-60):
8 reads from endpoint 0x82, then the byte-pair decode. -/
def request_spectrum (device : Nat → Option (List Nat)) : List Nat :=
  decodePixels (readLoopAux device 8 0)

/-- Python's arithmetic right shift on unbounded integers:
`n >> k = floor(n / 2^k)`. -/
def pyShr (n : Int) (k : Nat) : Int :=
  Int.fdiv n (2 ^ k)

/-- Python's `n & 0xFF` on unbounded integers: the Euclidean remainder
modulo 256 (always in 0..255, also for negative `n`). -/
def pyAnd255 (n : Int) : Int :=
  n % 256

/-- The 5-byte command list built by `set_integration_time`
(src/spec.py lines 28-36): command byte 0x02 followed by the four
masked shifted bytes of `time_us = time_ms * 1000`. -/
def set_integration_time_command (time_ms : Int) : List Int :=
  let time_us := time_ms * 1000
  [0x02, pyAnd255 time_us, pyAnd255 (pyShr time_us 8),
    pyAnd255 (pyShr time_us 16), pyAnd255 (pyShr time_us 24)]

/-- Little-endian 4-byte encoding of a natural number (the reference
notion of "32-bit little-endian encoding" used by the spec). -/
def le4 (n : Nat) : List Nat :=
  [n % 256, n / 256 % 256, n / 65536 % 256, n / 16777216 % 256]

/-- Faithful model of `np.linspace(start, stop, num)` with default
`endpoint=True` over exact rationals: `num` samples `start + i * step`
with `step = (stop - start) / (num - 1)`, the last sample set to `stop`
exactly (as numpy does); special cases for `num = 0` and `num = 1`. -/
def np_linspace (start stop : ℚ) (num : Nat) : List ℚ :=
  if num = 0 then []
  else if num = 1 then [start]
  else (List.range num).map fun i =>
    if i = num - 1 then stop
    else start + (i : ℚ) * ((stop - start) / ((num : ℚ) - 1))

/-- `interpret_spectrum` (src/spec.py lines 62-83): pair each intensity
with a linearly interpolated wavelength. -/
def interpret_spectrum (active_pixels : List Int)
    (start_wavelength end_wavelength : ℚ) : List (ℚ × Int) :=
  (np_linspace start_wavelength end_wavelength active_pixels.length).zip
    active_pixels

/-- Python list slice `xs[a:b]` for `0 ≤ a ≤ b`: never raises, clamps to
the list length. -/
def pySlice (xs : List α) (a b : Nat) : List α :=
  (xs.take b).drop a

/-- The active-pixel selection `spectrum[20:2048]` in `main`
(src/spec.py line 137). -/
def main_active_pixels (spectrum : List Nat) : List Nat :=
  pySlice spectrum 20 2048

/-- Observable effects of the driver: a USB write of a byte list to an
endpoint, a blocking USB read request of `size` bytes from an endpoint,
or a fixed sleep of `ms` milliseconds. -/
inductive Event where
  | write (endpoint : Nat) (data : List Int)
  | read (endpoint : Nat) (size : Nat)
  | sleepMs (ms : Nat)
  deriving DecidableEq

/-- Whether an event is a sleep delay. -/
def Event.isSleep : Event → Bool
  | Event.sleepMs _ => true
  | _ => false

/-- The sleep events of a trace. -/
def sleepEvents (t : List Event) : List Event :=
  t.filter Event.isSleep

/-- The number of sleep delays in a trace. -/
def countSleeps (t : List Event) : Nat :=
  (sleepEvents t).length

/-- Trace of `initialize_spectrometer` (src/spec.py lines 23-26): write
command 0x01 to endpoint 0x01, then sleep 100ms. -/
def initialize_spectrometer_trace : List Event :=
  [Event.write 0x01 [0x01], Event.sleepMs 100]

/-- Trace of `set_integration_time` (src/spec.py lines 28-37): write the
5-byte command to endpoint 0x01, then sleep 100ms. -/
def set_integration_time_trace (time_ms : Int) : List Event :=
  [Event.write 0x01 (set_integration_time_command time_ms),
    Event.sleepMs 100]

/-- Trace of the read loop of `request_spectrum`: each iteration issues
a read request of 512 bytes on endpoint 0x82; a failing read ends the
loop. -/
def readLoopTrace (device : Nat → Option (List Nat)) : Nat → Nat → List Event
  | 0, _ => []
  | fuel + 1, i =>
    Event.read 0x82 512 ::
      match device i with
      | none => []
      | some _ => readLoopTrace device fuel (i + 1)

/-- Trace of `request_spectrum` (src/spec.py lines 39-60): write the
trigger command 0x09 to endpoint 0x01, sleep 100ms (line 42), then run
the read loop. -/
def request_spectrum_trace (device : Nat → Option (List Nat)) : List Event :=
  [Event.write 0x01 [0x09], Event.sleepMs 100] ++ readLoopTrace device 8 0

/-- Trace of the command/acquisition sequence of `main` (src/spec.py
lines 120-148): connect (no writes, reads or sleeps on the spectrometer
endpoints), initialize, set integration time to 100ms, request a
spectrum.  Printing and plotting issue no further device events. -/
def main_trace (device : Nat → Option (List Nat)) : List Event :=
  initialize_spectrometer_trace ++ set_integration_time_trace 100 ++
    request_spectrum_trace device

/-- The decoder emits one pixel per complete byte pair. -/
theorem decodePixels_length : ∀ data : List Nat,
    (decodePixels data).length = data.length / 2
  | [] => rfl
  | [_] => by simp [decodePixels]
  | _ :: _ :: rest => by
    simp only [decodePixels, List.length_cons]
    rw [decodePixels_length rest]
    omega

/-- Index formula for the decoder: pixel `i` combines bytes `2i` and
`2i + 1`. -/
theorem decodePixels_getElem? : ∀ (data : List Nat) (i : Nat),
    i < data.length / 2 →
    (decodePixels data)[i]? =
      some (data.getD (2 * i) 0 ||| (data.getD (2 * i + 1) 0 <<< 8))
  | [], i, h => by simp at h
  | [_], i, h => by
    simp only [List.length_cons, List.length_nil] at h
    omega
  | a :: b :: rest, 0, _ => by simp [decodePixels]
  | a :: b :: rest, i + 1, h => by
    have h' : i < rest.length / 2 := by
      simp only [List.length_cons] at h
      omega
    have ih := decodePixels_getElem? rest i h'
    have e1 : 2 * (i + 1) = 2 * i + 1 + 1 := by ring
    have e2 : 2 * (i + 1) + 1 = 2 * i + 1 + 1 + 1 := by ring
    simp only [decodePixels, List.getElem?_cons_succ, e1, e2,
      List.getD_cons_succ]
    exact ih

/-- Characterisation of the read loop: if the reads at iterations
`i, i + 1, ...` return the packets of `ps` in order and the next read
after them fails (unless the fuel is exhausted first), the loop returns
exactly the concatenation of the packets in `ps`. -/
theorem readLoopAux_spec (device : Nat → Option (List Nat)) :
    ∀ (ps : List (List Nat)) (fuel i : Nat), ps.length ≤ fuel →
    (∀ j (hj : j < ps.length), device (i + j) = some (ps.get ⟨j, hj⟩)) →
    (ps.length < fuel → device (i + ps.length) = none) →
    readLoopAux device fuel i = ps.flatten
  | [], fuel, i, _, _, hfail => by
    cases fuel with
    | zero => rfl
    | succ m =>
      have hnone : device i = none := by
        have := hfail (Nat.succ_pos m)
        simpa using this
      simp [readLoopAux, hnone]
  | p :: rest, fuel, i, hlen, hsucc, hfail => by
    cases fuel with
    | zero => simp at hlen
    | succ m =>
      have h0 : device i = some p := by
        have := hsucc 0 (by simp)
        simpa using this
      have ih := readLoopAux_spec device rest m (i + 1)
        (by simp at hlen; omega)
        (fun j hj => by
          have := hsucc (j + 1) (by simp; omega)
          simpa [Nat.add_comm, Nat.add_assoc, Nat.add_left_comm] using this)
        (fun hlt => by
          have := hfail (by simp; omega)
          simpa [Nat.add_comm, Nat.add_assoc, Nat.add_left_comm] using this)
      simp [readLoopAux, h0, ih]

/-- Bound on the bytes accumulated by the read loop when every
successful read returns at most 512 bytes. -/
theorem readLoopAux_length_le (device : Nat → Option (List Nat))
    (h : ∀ j p, device j = some p → p.length ≤ 512) :
    ∀ (fuel i : Nat), (readLoopAux device fuel i).length ≤ fuel * 512
  | 0, _ => by simp [readLoopAux]
  | fuel + 1, i => by
    cases hd : device i with
    | none => simp [readLoopAux, hd]
    | some p =>
      have h1 := h i p hd
      have h2 := readLoopAux_length_le device h fuel (i + 1)
      simp only [readLoopAux, hd, List.length_append]
      omega

/-- `np.linspace` always returns exactly `num` samples. -/
theorem np_linspace_length (s e : ℚ) (num : Nat) :
    (np_linspace s e num).length = num := by
  unfold np_linspace
  rcases num with _ | _ | n
  · rfl
  · rfl
  · simp

/-- Closed form for every sample of `np.linspace`: over exact rationals
the forced final endpoint agrees with the interpolation formula, so
sample `i` is always `start + i * (stop - start) / (num - 1)` (for
`num = 1` the division by zero makes the second summand `0`). -/
theorem np_linspace_getElem? (s e : ℚ) (num i : Nat) (hi : i < num) :
    (np_linspace s e num)[i]? =
      some (s + (i : ℚ) * ((e - s) / ((num : ℚ) - 1))) := by
  unfold np_linspace
  split
  · omega
  · split
    · have hn1 : num = 1 := by assumption
      have hi0 : i = 0 := by omega
      subst hn1; subst hi0
      norm_num
    · have hn0 : num ≠ 0 := by assumption
      have hn1 : num ≠ 1 := by assumption
      have hn2 : 2 ≤ num := by omega
      rw [List.getElem?_map, List.getElem?_range hi]
      simp only [Option.map_some']
      congr 1
      split
      · have hne : (num : ℚ) - 1 ≠ 0 := by
          have h2 : (2 : ℚ) ≤ (num : ℚ) := by exact_mod_cast hn2
          intro hc
          nlinarith
        have hcast : ((num - 1 : Nat) : ℚ) = (num : ℚ) - 1 := by
          have : 1 ≤ num := by omega
          push_cast [this]
          ring
        have hieq : i = num - 1 := by assumption
        subst hieq
        rw [hcast]
        field_simp
      · rfl

/-- The four command payload bytes of `set_integration_time` are the
bytes of the argument reduced modulo `2^32`: for every integer `u` and
shift `k` with `k + 8 ≤ 32`, masking the `k`-shifted value picks byte
`k / 8` of the little-endian encoding of `u mod 2^32`. -/
theorem pyAnd255_pyShr (u : Int) (k : Nat) (hk : k + 8 ≤ 32) :
    pyAnd255 (pyShr u k) =
      (((u % 2 ^ 32).toNat / 2 ^ k % 256 : Nat) : Int) := by
  have hr0 : 0 ≤ u % 2 ^ 32 := Int.emod_nonneg u (by positivity)
  have hpowsplit : (2 : Int) ^ (32 - k) * 2 ^ k = 2 ^ 32 := by
    rw [← pow_add]
    congr 1
    omega
  have h2 := Int.ediv_add_emod u (2 ^ 32)
  have hsplit : u = u % 2 ^ 32 + 2 ^ (32 - k) * (u / 2 ^ 32) * 2 ^ k := by
    have hq : (2 : Int) ^ (32 - k) * (u / 2 ^ 32) * 2 ^ k =
        2 ^ 32 * (u / 2 ^ 32) := by
      rw [← hpowsplit]
      ring
    rw [hq]
    linarith [h2]
  have hshr : pyShr u k =
      (u % 2 ^ 32) / 2 ^ k + 2 ^ (32 - k) * (u / 2 ^ 32) := by
    unfold pyShr
    rw [Int.fdiv_eq_ediv u (by positivity)]
    conv_lhs => rw [hsplit]
    rw [Int.add_mul_ediv_right _ _ (by positivity : (2 : Int) ^ k ≠ 0)]
  have hmul : (2 : Int) ^ (32 - k) * (u / 2 ^ 32) =
      256 * (2 ^ (32 - k - 8) * (u / 2 ^ 32)) := by
    have h8 : (2 : Int) ^ (32 - k) = 256 * 2 ^ (32 - k - 8) := by
      have h256 : (256 : Int) = 2 ^ 8 := by norm_num
      rw [h256, ← pow_add]
      congr 1
      omega
    rw [h8]
    ring
  unfold pyAnd255
  rw [hshr, hmul, Int.add_mul_emod_self_left]
  have htn : u % 2 ^ 32 = ((u % 2 ^ 32).toNat : Int) :=
    (Int.toNat_of_nonneg hr0).symm
  conv_lhs => rw [htn]
  push_cast
  rfl

/-- For every integer `time_ms`, the command built by
`set_integration_time` is `0x02` followed by the 4-byte little-endian
encoding of `time_ms * 1000 mod 2^32` (Python's masking and arithmetic
shifts realise exactly this two's-complement truncation). -/
theorem set_integration_time_command_eq (time_ms : Int) :
    set_integration_time_command time_ms =
      0x02 :: (le4 ((time_ms * 1000) % 2 ^ 32).toNat).map
        (fun b => (b : Int)) := by
  have h8 := pyAnd255_pyShr (time_ms * 1000) 8 (by omega)
  have h16 := pyAnd255_pyShr (time_ms * 1000) 16 (by omega)
  have h24 := pyAnd255_pyShr (time_ms * 1000) 24 (by omega)
  have h0 := pyAnd255_pyShr (time_ms * 1000) 0 (by omega)
  have hshr0 : pyShr (time_ms * 1000) 0 = time_ms * 1000 := by
    unfold pyShr
    simp [Int.fdiv_one]
  rw [hshr0] at h0
  simp only [set_integration_time_command, le4, List.map]
  rw [h0, h8, h16, h24]
  norm_num

/-- The read-loop trace contains no sleep event: every iteration only
issues a read request. -/
theorem readLoopTrace_sleepEvents (device : Nat → Option (List Nat)) :
    ∀ fuel i, sleepEvents (readLoopTrace device fuel i) = []
  | 0, _ => rfl
  | fuel + 1, i => by
    cases hd : device i with
    | none => simp [readLoopTrace, hd, sleepEvents, Event.isSleep]
    | some p =>
      have ih := readLoopTrace_sleepEvents device fuel (i + 1)
      simp only [readLoopTrace, hd, sleepEvents, List.filter] at ih ⊢
      simpa [Event.isSleep] using ih

/-- C1: Decoder correctness: for every byte buffer the decoding step of
`request_spectrum` produces exactly `⌊len/2⌋` pixel values, pixel `i`
being `buffer[2i] | (buffer[2i+1] << 8)` (an odd trailing byte is
discarded), and `[0x01,0x00,0xFF,0x00,0x00,0x01]` decodes to
`[1, 255, 256]`. -/
theorem claim_C1_decoder_correct (data : List Nat)
    (_hb : ∀ b ∈ data, b ≤ 255) :
    (decodePixels data).length = data.length / 2 ∧
    (∀ i, i < data.length / 2 →
      (decodePixels data)[i]? =
        some (data.getD (2 * i) 0 ||| (data.getD (2 * i + 1) 0 <<< 8))) ∧
    decodePixels [0x01, 0x00, 0xFF, 0x00, 0x00, 0x01] = [1, 255, 256] :=
  ⟨decodePixels_length data,
   fun i hi => decodePixels_getElem? data i hi,
   by decide⟩

/-- Witness for C1 at the spec's example buffer. -/
theorem claim_C1_witness :
    (∀ b ∈ ([1, 0, 255, 0, 0, 1] : List Nat), b ≤ 255) ∧
    (decodePixels [1, 0, 255, 0, 0, 1]).length =
      ([1, 0, 255, 0, 0, 1] : List Nat).length / 2 :=
  ⟨by decide, (claim_C1_decoder_correct [1, 0, 255, 0, 0, 1] (by decide)).1⟩

/-- C2: `interpret_spectrum` never fails, returns exactly one pair per
input intensity with intensities index-aligned to the input, and maps
the empty list to the empty list. -/
theorem claim_C2_interpret_length (xs : List Int) (s e : ℚ) :
    (interpret_spectrum xs s e).length = xs.length ∧
    (∀ i : Nat, ((interpret_spectrum xs s e)[i]?).map Prod.snd = xs[i]?) ∧
    interpret_spectrum [] s e = [] := by
  refine ⟨?_, ?_, rfl⟩
  · unfold interpret_spectrum
    rw [List.length_zip, np_linspace_length]
    exact Nat.min_self _
  · intro i
    unfold interpret_spectrum
    have hmap : ((np_linspace s e xs.length).zip xs).map Prod.snd = xs :=
      List.map_snd_zip _ _ (Nat.le_of_eq (np_linspace_length s e xs.length).symm)
    calc Option.map Prod.snd (((np_linspace s e xs.length).zip xs)[i]?)
        = (((np_linspace s e xs.length).zip xs).map Prod.snd)[i]? :=
          (List.getElem?_map _ _ _).symm
      _ = xs[i]? := by rw [hmap]

/-- Witness for C2 at a concrete intensity list. -/
theorem claim_C2_witness :
    (interpret_spectrum [7] 0 1).length = ([7] : List Int).length :=
  (claim_C2_interpret_length [7] 0 1).1

/-- C3: the wavelengths of `interpret_spectrum` are evenly spaced over
the closed interval with spacing `(end - start)/(N - 1)`: sample `i` is
`start + i * (end - start)/(N - 1)`, the first sample is `start`, the
last is `end` when `N > 1` (for `N = 1` the formula collapses to
`start`), and `[10, 20, 30]` with bounds 400 and 700 yields
`[(400, 10), (550, 20), (700, 30)]`. -/
theorem claim_C3_wavelengths (xs : List Int) (s e : ℚ)
    (h : 1 ≤ xs.length) :
    (∀ i, i < xs.length →
      ((interpret_spectrum xs s e)[i]?).map Prod.fst =
        some (s + (i : ℚ) * ((e - s) / ((xs.length : ℚ) - 1)))) ∧
    ((interpret_spectrum xs s e)[0]?).map Prod.fst = some s ∧
    (1 < xs.length →
      ((interpret_spectrum xs s e)[xs.length - 1]?).map Prod.fst = some e) ∧
    interpret_spectrum [10, 20, 30] 400 700 =
      [(400, 10), (550, 20), (700, 30)] := by
  have key : ∀ i, i < xs.length →
      ((interpret_spectrum xs s e)[i]?).map Prod.fst =
        some (s + (i : ℚ) * ((e - s) / ((xs.length : ℚ) - 1))) := by
    intro i hi
    unfold interpret_spectrum
    have hmap : ((np_linspace s e xs.length).zip xs).map Prod.fst =
        np_linspace s e xs.length :=
      List.map_fst_zip _ _ (Nat.le_of_eq (np_linspace_length s e xs.length))
    calc Option.map Prod.fst (((np_linspace s e xs.length).zip xs)[i]?)
        = (((np_linspace s e xs.length).zip xs).map Prod.fst)[i]? :=
          (List.getElem?_map _ _ _).symm
      _ = (np_linspace s e xs.length)[i]? := by rw [hmap]
      _ = some (s + (i : ℚ) * ((e - s) / ((xs.length : ℚ) - 1))) :=
          np_linspace_getElem? s e xs.length i hi
  refine ⟨key, ?_, ?_, ?_⟩
  · have h0 := key 0 (by omega)
    simpa using h0
  · intro h1
    have hl := key (xs.length - 1) (by omega)
    rw [hl]
    congr 1
    have hne : (xs.length : ℚ) - 1 ≠ 0 := by
      have h2 : 2 ≤ xs.length := h1
      have h2q : (2 : ℚ) ≤ (xs.length : ℚ) := by exact_mod_cast h2
      intro hc
      nlinarith
    have hcast : ((xs.length - 1 : Nat) : ℚ) = (xs.length : ℚ) - 1 := by
      push_cast [h]
      ring
    rw [hcast, mul_comm ((xs.length : ℚ) - 1), div_mul_cancel₀ _ hne]
    ring
  · norm_num [interpret_spectrum, np_linspace, List.range_succ]

/-- Witness for C3 at the spec's example. -/
theorem claim_C3_witness :
    1 ≤ ([10, 20, 30] : List Int).length ∧
    interpret_spectrum [10, 20, 30] 400 700 =
      [(400, 10), (550, 20), (700, 30)] :=
  ⟨by decide, (claim_C3_wavelengths [10, 20, 30] 400 700 (by decide)).2.2.2⟩

/-- C4: read-loop truncation: if the reads return the packets of `ps`
at iterations `0, ..., ps.length - 1` and the next read (if any fuel is
left) fails, `request_spectrum` decodes exactly the concatenation of
those packets: a failure at the `k`-th read leaves the `k - 1`
successful packets, and with no failure all 8 packets are decoded. -/
theorem claim_C4_read_loop_truncation (device : Nat → Option (List Nat))
    (ps : List (List Nat)) (hlen : ps.length ≤ 8)
    (hsucc : ∀ j (hj : j < ps.length), device j = some (ps.get ⟨j, hj⟩))
    (hfail : ps.length < 8 → device ps.length = none) :
    request_spectrum device = decodePixels ps.flatten := by
  unfold request_spectrum
  rw [readLoopAux_spec device ps 8 0 hlen
    (fun j hj => by simpa using hsucc j hj)
    (fun hlt => by simpa using hfail hlt)]

/-- A device whose first three reads succeed and whose fourth read
raises. -/
def truncDevice : Nat → Option (List Nat) :=
  fun j => if j < 3 then some [1, 2] else none

/-- Witness for C4: three successful reads out of 8. -/
theorem claim_C4_witness :
    request_spectrum truncDevice =
      decodePixels ([[1, 2], [1, 2], [1, 2]] : List (List Nat)).flatten :=
  claim_C4_read_loop_truncation truncDevice [[1, 2], [1, 2], [1, 2]]
    (by decide)
    (fun j hj => by
      match j, hj with
      | 0, _ => rfl
      | 1, _ => rfl
      | 2, _ => rfl)
    (fun _ => rfl)

/-- C5: for nonnegative `time_ms` whose microsecond value fits in 32
bits, `set_integration_time` sends the 5-byte packet `0x02` followed by
the little-endian encoding of `time_ms * 1000`; in particular 100ms
gives payload `[0xA0, 0x86, 0x01, 0x00]`. -/
theorem claim_C5_integration_time_encoding (time_ms : Int)
    (h0 : 0 ≤ time_ms) (hlt : time_ms * 1000 < 2 ^ 32) :
    set_integration_time_command time_ms =
      0x02 :: (le4 (time_ms * 1000).toNat).map (fun b => (b : Int)) ∧
    (set_integration_time_command time_ms).length = 5 ∧
    set_integration_time_command 100 = [0x02, 0xA0, 0x86, 0x01, 0x00] := by
  have hmod : (time_ms * 1000) % 2 ^ 32 = time_ms * 1000 :=
    Int.emod_eq_of_lt (by positivity) hlt
  refine ⟨?_, rfl, by decide⟩
  rw [set_integration_time_command_eq, hmod]

/-- Witness for C5 at `time_ms = 100`. -/
theorem claim_C5_witness :
    (0 : Int) ≤ 100 ∧ (100 : Int) * 1000 < 2 ^ 32 ∧
    set_integration_time_command 100 =
      0x02 :: (le4 ((100 : Int) * 1000).toNat).map (fun b => (b : Int)) :=
  ⟨by decide, by decide,
   (claim_C5_integration_time_encoding 100 (by decide) (by decide)).1⟩

/-- C6: when `time_ms * 1000` overflows 32 bits, `set_integration_time`
still sends a 5-byte packet whose payload is the little-endian encoding
of `(time_ms * 1000) mod 2^32`: the high bits are dropped without
validation. -/
theorem claim_C6_integration_time_overflow (time_ms : Int)
    (_h0 : 0 ≤ time_ms) (_hge : 2 ^ 32 ≤ time_ms * 1000) :
    set_integration_time_command time_ms =
      0x02 :: (le4 ((time_ms * 1000) % 2 ^ 32).toNat).map
        (fun b => (b : Int)) ∧
    (set_integration_time_command time_ms).length = 5 :=
  ⟨set_integration_time_command_eq time_ms, rfl⟩

/-- Witness for C6 at an overflowing input. -/
theorem claim_C6_witness :
    (0 : Int) ≤ 4294968 ∧ (2 : Int) ^ 32 ≤ 4294968 * 1000 ∧
    set_integration_time_command 4294968 =
      0x02 :: (le4 (((4294968 : Int) * 1000) % 2 ^ 32).toNat).map
        (fun b => (b : Int)) :=
  ⟨by decide, by decide,
   (claim_C6_integration_time_overflow 4294968 (by decide) (by decide)).1⟩

/-- C7: assuming each successful read returns at most 512 bytes, the
pixel list of `request_spectrum` has at most 2048 entries, however many
of the 8 reads succeed. -/
theorem claim_C7_pixel_count_bound (device : Nat → Option (List Nat))
    (h : ∀ j p, device j = some p → p.length ≤ 512) :
    (request_spectrum device).length ≤ 2048 := by
  have h1 := readLoopAux_length_le device h 8 0
  have h2 := decodePixels_length (readLoopAux device 8 0)
  unfold request_spectrum
  omega

/-- A device every read of which returns a full 512-byte packet. -/
def fullDevice : Nat → Option (List Nat) :=
  fun _ => some (List.replicate 512 7)

/-- Witness for C7 at a device returning full packets. -/
theorem claim_C7_witness :
    (request_spectrum fullDevice).length ≤ 2048 :=
  claim_C7_pixel_count_bound fullDevice
    (fun j p hp => by
      have hrep : List.replicate 512 7 = p := Option.some.inj hp
      rw [← hrep, List.length_replicate])

/-- C8: the slice `spectrum[20:2048]` of `main` never raises: it has
length `min(L, 2048) - 20` (truncated at 0), element `i` of the slice
is element `20 + i` of the input, and whenever fewer than 2048 pixels
were decoded the slice is shorter than 2028 elements. -/
theorem claim_C8_active_pixel_slice (spectrum : List Nat) :
    (main_active_pixels spectrum).length = min spectrum.length 2048 - 20 ∧
    (∀ i, (main_active_pixels spectrum)[i]? =
      if 20 + i < 2048 then spectrum[20 + i]? else none) ∧
    (spectrum.length < 2048 →
      (main_active_pixels spectrum).length < 2028) := by
  have hlen : (main_active_pixels spectrum).length =
      min spectrum.length 2048 - 20 := by
    unfold main_active_pixels pySlice
    rw [List.length_drop, List.length_take]
    omega
  refine ⟨hlen, ?_, ?_⟩
  · intro i
    unfold main_active_pixels pySlice
    rw [List.getElem?_drop, List.getElem?_take]
  · intro hlt
    rw [hlen]
    omega

/-- Witness for C8 at a short decoded list. -/
theorem claim_C8_witness :
    (List.replicate 30 0).length < 2048 ∧
    (main_active_pixels (List.replicate 30 0)).length < 2028 :=
  ⟨by decide, (claim_C8_active_pixel_slice (List.replicate 30 0)).2.2 (by decide)⟩

/-- C9 counterexample: the program executes three fixed sleep delays,
not two: the acquisition trigger in `request_spectrum` sleeps as well
(src/spec.py line 42), so at the concrete device whose reads all fail
the sleep count of a full run is 3 and the claim's count of 2 is
false. -/
theorem claim_C9_counterexample :
    countSleeps (main_trace fun _ => none) ≠ 2 ∧
    countSleeps (main_trace fun _ => none) = 3 ∧
    Event.sleepMs 100 ∈ request_spectrum_trace fun _ => none := by
  decide

/-- C9 (amended): over a complete run the program executes exactly
three fixed 100ms sleep delays: one after the initialize command, one
after the set-integration-time command, and one after the acquisition
trigger in `request_spectrum`; no other operation (in particular no
read iteration) sleeps. -/
theorem claim_C9_amended (device : Nat → Option (List Nat)) :
    countSleeps (main_trace device) = 3 ∧
    sleepEvents initialize_spectrometer_trace = [Event.sleepMs 100] ∧
    sleepEvents (set_integration_time_trace 100) = [Event.sleepMs 100] ∧
    sleepEvents (request_spectrum_trace device) = [Event.sleepMs 100] := by
  have hrl : (readLoopTrace device 8 0).filter Event.isSleep = [] :=
    readLoopTrace_sleepEvents device 8 0
  have hreq : sleepEvents (request_spectrum_trace device) =
      [Event.sleepMs 100] := by
    unfold request_spectrum_trace sleepEvents
    rw [List.filter_append, hrl]
    rfl
  refine ⟨?_, rfl, rfl, hreq⟩
  unfold countSleeps main_trace sleepEvents
  rw [List.filter_append, List.filter_append]
  have hreq' : (request_spectrum_trace device).filter Event.isSleep =
      [Event.sleepMs 100] := hreq
  rw [hreq']
  rfl

/-- Witness for C9 (amended) at a concrete device. -/
theorem claim_C9_witness :
    countSleeps (main_trace fun _ => some [0]) = 3 :=
  (claim_C9_amended fun _ => some [0]).1

/-- C10: for negative `time_ms`, `set_integration_time` raises no error
and sends the little-endian bytes of `(time_ms * 1000) mod 2^32`
(Python's arithmetic shift and masking wrap two's-complement style);
`time_ms = -1` sends payload `[0x18, 0xFC, 0xFF, 0xFF]`. -/
theorem claim_C10_negative_wrap (time_ms : Int) (_hneg : time_ms < 0) :
    set_integration_time_command time_ms =
      0x02 :: (le4 ((time_ms * 1000) % 2 ^ 32).toNat).map
        (fun b => (b : Int)) ∧
    set_integration_time_command (-1) =
      [0x02, 0x18, 0xFC, 0xFF, 0xFF] :=
  ⟨set_integration_time_command_eq time_ms, by decide⟩

/-- Witness for C10 at `time_ms = -1`. -/
theorem claim_C10_witness :
    (-1 : Int) < 0 ∧
    set_integration_time_command (-1) = [0x02, 0x18, 0xFC, 0xFF, 0xFF] :=
  ⟨by decide, (claim_C10_negative_wrap (-1) (by decide)).2⟩
